import Mathlib

/-!
Verification of the crawl-and-rewrite engine of `clone-notion.js`
(Notion → static-site cloner).

The script is embedded shallowly: every helper function of the source
(`normalizeUrl`, `isNotionPage`, `uniqueSlug`, `assetFilename`) and the
crawl loop / post-crawl fixup pass are translated into executable Lean
definitions.  Strings are modelled as `List Char` (named `Str`) so that
every definition reduces inside the kernel; the few external libraries
the script uses (the WHATWG `URL` class, the npm `slugify` package,
`Buffer`'s base64 encoding) are modelled by executable definitions that
follow their documented behaviour on the hierarchical http(s) URLs and
ASCII titles the crawler works with.
-/

namespace NotionClone

/-- Character list standing for a JavaScript string. -/
abbrev Str := List Char

/-- ASCII whitespace test (models the whitespace classes the script meets). -/
def isWS (c : Char) : Bool := c == ' ' || c == '\t' || c == '\n' || c == '\r'

/-- Lowercase every character (models `String.prototype.toLowerCase` on ASCII). -/
def lowerS (s : Str) : Str := s.map Char.toLower

/-- Strip leading and trailing whitespace (models `String.prototype.trim`). -/
def trimS (s : Str) : Str := ((s.dropWhile isWS).reverse.dropWhile isWS).reverse

/-- Split a list at the first character satisfying `p`: returns the prefix
before it and the remainder starting with that character (or `[]`). -/
def takeUntil (p : Char → Bool) : Str → Str × Str
  | [] => ([], [])
  | c :: cs =>
    if p c then ([], c :: cs)
    else
      let r := takeUntil p cs
      (c :: r.1, r.2)

/-- Does `pat` occur at the head of `s`? -/
def isPrefixLit : Str → Str → Bool
  | [], _ => true
  | _ :: _, [] => false
  | p :: ps, c :: cs => p == c && isPrefixLit ps cs

/-- Fuelled worker for `replaceAllLit`; the fuel bounds the scan length. -/
def replaceAllAux (pat repl : Str) : Nat → Str → Str
  | 0, s => s
  | _, [] => []
  | fuel + 1, c :: cs =>
    if isPrefixLit pat (c :: cs) then
      repl ++ replaceAllAux pat repl fuel ((c :: cs).drop pat.length)
    else
      c :: replaceAllAux pat repl fuel cs

/-- Replace every (leftmost, non-overlapping) literal occurrence of `pat` by
`repl`; models `html.replace(new RegExp(escapeRegExp(pat), 'g'), repl)` from
the fixup pass — `escapeRegExp` makes the pattern a literal one. -/
def replaceAllLit (pat repl s : Str) : Str :=
  if pat.isEmpty then s else replaceAllAux pat repl s.length s

/-- Keep only the leading characters of `s` (models `slice(0, n)` / `take`). -/
def takeS (s : Str) (n : Nat) : Str := s.take n

/-- Drop the final `n` characters (models dropping a known suffix). -/
def dropRightS (s : Str) (n : Nat) : Str := s.take (s.length - n)

/-- Suffix test (models `/suffix$/` regex tests and `endsWith`). -/
def endsWithS (s suf : Str) : Bool :=
  decide (suf.length ≤ s.length) && decide (s.drop (s.length - suf.length) = suf)

/-! ### Decimal rendering of numbers

JavaScript renders the counter `i` of `uniqueSlug` with the template
literal `${i}`, i.e. in decimal.  `decDigits` produces the little-endian
decimal digits (with fuel, so the definition reduces in the kernel) and
`natDecimal` the usual decimal string. -/

/-- Little-endian decimal digits of `n`; `fuel ≥ n + 1` always suffices. -/
def decDigits : Nat → Nat → List Nat
  | 0, _ => []
  | fuel + 1, n => if n < 10 then [n] else n % 10 :: decDigits fuel (n / 10)

/-- Decimal digit character. -/
def digitCh (d : Nat) : Char := Char.ofNat (48 + d)

/-- Decimal string of a natural number (models `${i}` in a template literal). -/
def natDecimal (n : Nat) : Str := ((decDigits (n + 1) n).map digitCh).reverse

/-! ### The WHATWG `URL` class, restricted to hierarchical http(s)-style URLs

The script builds URLs with `new URL(...)` and reads `.host`, `.pathname`,
`.hash` and `.toString()`.  `parseURL` models the parser on the
`scheme://host/path?query#fragment` shape (the only shape the crawler's
same-host pages and asset links take): the scheme is the part before the
first `:`, which must be alphabetic and followed by `//`; the host — which
keeps any `:port` text, like `URL.host` — runs to the first `/`, `?` or
`#` and must be non-empty; an empty path serialises as `/`.  Scheme and
host are lowercased as the real parser does.  Opaque-path schemes such as
`mailto:` are outside the model and parse as failures. -/

structure JSURL where
  scheme : Str
  host : Str
  pathname : Str
  search : Str
  hash : Str
  deriving DecidableEq

/-- Parse an absolute URL string; `none` models `new URL(u)` throwing. -/
def parseURL (u : Str) : Option JSURL :=
  let s := takeUntil (fun c => c == ':') u
  match s.2 with
  | ':' :: '/' :: '/' :: rest =>
    if s.1.isEmpty || !(s.1.all Char.isAlpha) then none
    else
      let h := takeUntil (fun c => c == '/' || c == '?' || c == '#') rest
      if h.1.isEmpty then none
      else
        let p := takeUntil (fun c => c == '?' || c == '#') h.2
        let q := takeUntil (fun c => c == '#') p.2
        some { scheme := lowerS s.1
               host := lowerS h.1
               pathname := if p.1.isEmpty then ['/'] else p.1
               search := q.1
               hash := match q.2 with | _ :: f => f | [] => [] }
  | _ => none

/-- Serialise a URL (models `URL.prototype.toString`); a cleared fragment
(`hash = []`) serialises without a `#`, which is exactly what
`normalizeUrl` relies on. -/
def urlString (x : JSURL) : Str :=
  x.scheme ++ (':' :: '/' :: '/' :: []) ++ x.host ++ x.pathname ++ x.search ++
    (if x.hash.isEmpty then [] else '#' :: x.hash)

/-- Does the string start with an (alphabetic) scheme followed by `:`? -/
def hasScheme (s : Str) : Bool :=
  let t := takeUntil (fun c => c == ':' || c == '/' || c == '?' || c == '#') s
  match t.2 with
  | ':' :: _ => !t.1.isEmpty && t.1.all Char.isAlpha
  | _ => false

/-- The directory part of a path: everything up to and including the last
`/` (used for resolving sibling-relative references). -/
def dirOf (p : Str) : Str := (p.reverse.dropWhile (fun c => !(c == '/'))).reverse

/-- Fragment text behind a `#` head, if any. -/
def fragOf (r : Str) : Str := match r with | _ :: f => f | [] => []

/-- Relative-URL resolution: models `new URL(href, base)` for the shapes an
anchor href can take — absolute, scheme-relative (`//…`), root-relative
(`/…`), query-only (`?…`), fragment-only (`#…`), empty, or a sibling
path.  `none` models the constructor throwing. -/
def jsResolve (href : Str) (base : JSURL) : Option JSURL :=
  if hasScheme href then parseURL href
  else if isPrefixLit ('/' :: '/' :: []) href then parseURL (base.scheme ++ ':' :: href)
  else
    match href with
    | [] => some { base with hash := [] }
    | '#' :: f => some { base with hash := f }
    | '?' :: _ =>
      let q := takeUntil (fun c => c == '#') href
      some { base with search := q.1, hash := fragOf q.2 }
    | '/' :: _ =>
      let p := takeUntil (fun c => c == '?' || c == '#') href
      let q := takeUntil (fun c => c == '#') p.2
      some { base with pathname := p.1, search := q.1, hash := fragOf q.2 }
    | _ =>
      let p := takeUntil (fun c => c == '?' || c == '#') href
      let q := takeUntil (fun c => c == '#') p.2
      some { base with pathname := dirOf base.pathname ++ p.1
                       search := q.1
                       hash := fragOf q.2 }

/-- Model of `normalizeUrl` from the source: parse, drop the client-side anchor
(`x.hash = ''`), serialise; on malformed input return the input unchanged. -/
def normalizeUrl (u : Str) : Str :=
  match parseURL u with
  | some x => urlString { x with hash := [] }
  | none => u

/-- Case-insensitive hexadecimal digit (the `[0-9a-f]` class under `/i`). -/
def isHexDigit (c : Char) : Bool :=
  (decide ('0' ≤ c) && decide (c ≤ '9')) ||
  (decide ('a' ≤ c) && decide (c ≤ 'f')) ||
  (decide ('A' ≤ c) && decide (c ≤ 'F'))

/-- Does the list contain 32 consecutive hexadecimal characters?  This is
the test `/[0-9a-f]{32}/i.test(-)` performs. -/
def hasHex32 : Str → Bool
  | [] => false
  | c :: t => (decide (32 ≤ (c :: t).length) && ((c :: t).take 32).all isHexDigit)
      || hasHex32 t

/-- Model of `isNotionPage` from the source: the hyphen-stripped path must contain a
32-character hexadecimal identifier; malformed URLs classify as `false`. -/
def isNotionPage (u : Str) : Bool :=
  match parseURL u with
  | some x => hasHex32 (x.pathname.filter (fun c => !(c == '-')))
  | none => false

/-- The in-scope test of the anchor-rewrite loop (lines 125–126):
`new URL(abs).host === host && isNotionPage(abs)`; a URL whose host check
cannot even be computed (malformed) is never in scope. -/
def inScope (host u : Str) : Bool :=
  (match parseURL u with
   | some x => x.host == host
   | none => false) && isNotionPage u

/-! ### The npm `slugify` package (options `lower: true, strict: true`)

With `strict`, the package removes every character that is not ASCII
alphanumeric or whitespace, trims, collapses whitespace runs into the `-`
replacement, and lowercases.  (The character map is the identity on the
ASCII titles the crawler produces.) -/

/-- Collapse whitespace runs into single `-` characters; the flag records
whether the previous character was whitespace. -/
def collapseWS : Bool → Str → Str
  | _, [] => []
  | prevWS, c :: cs =>
    if isWS c then
      if prevWS then collapseWS true cs else '-' :: collapseWS true cs
    else c :: collapseWS false cs

/-- Model of `slugify(s, { lower: true, strict: true })` on ASCII input. -/
def slugify (s : Str) : Str :=
  lowerS (collapseWS false (trimS (s.filter (fun c => c.isAlphanum || isWS c))))

/-- Strip a trailing `.html` (the `replace(/\.html$/, '')` of `uniqueSlug`). -/
def stripHtmlExt (s : Str) : Str :=
  if endsWithS s ('.' :: 'h' :: 't' :: 'm' :: 'l' :: []) then dropRightS s 5 else s

/-- The `while (used.has(slug))` search of `uniqueSlug`, with fuel: try
`slug`, then `base-i`, `base-(i+1)`, …  One unit of fuel per loop test. -/
def slugSearch (base : Str) (used : List Str) : Nat → Str → Nat → Str
  | 0, slug, _ => slug
  | fuel + 1, slug, i =>
    if used.contains slug then
      slugSearch base used fuel (base ++ '-' :: natDecimal i) (i + 1)
    else slug

/-- A visited-map entry: `{title, filename}`. -/
structure PageMeta where
  title : Str
  filename : Str
  deriving DecidableEq

/-- Model of `uniqueSlug(title, map)` from the source: slugify the title (default
`page`), truncate to 60 characters, then append `-2`, `-3`, … while the
candidate collides with a filename already recorded in the visited map
(filenames compared with their `.html` suffix stripped).  The fuel
`used.length + 1` covers the worst case where every used name is hit. -/
def uniqueSlug (title : Str) (map : List (Str × PageMeta)) : Str :=
  let b0 := slugify title
  let b1 := if b0.isEmpty then ('p' :: 'a' :: 'g' :: 'e' :: []) else b0
  let base := takeS b1 60
  let used := map.map (fun p => stripHtmlExt p.2.filename)
  slugSearch base used (used.length + 1) base 2

/-- The base slug of a title: `slugify(title) || 'page'`, truncated to 60
characters — the start value of `uniqueSlug`'s collision loop. -/
def baseOf (title : Str) : Str :=
  takeS (if (slugify title).isEmpty then ('p' :: 'a' :: 'g' :: 'e' :: []) else slugify title) 60

/-- The candidate sequence `uniqueSlug`'s loop walks: `base`, `base-2`,
`base-3`, … (`cand b k` is the slug allocated to the `(k+1)`-st title of
base slug `b`). -/
def cand (base : Str) : Nat → Str
  | 0 => base
  | k + 1 => base ++ '-' :: natDecimal (k + 2)

/-- The first `n` candidates. -/
def candList (base : Str) (n : Nat) : List Str := (List.range n).map (cand base)

/-- Successive allocation: run `uniqueSlug` on each title in turn, recording
each result in the visited map exactly as the crawl loop does (the URL key
plays no role in the allocator). -/
def allocSeq : List Str → List (Str × PageMeta) → List Str
  | [], _ => []
  | t :: ts, vis =>
    let s := uniqueSlug t vis
    s :: allocSeq ts (vis ++ [([], ⟨t, s ++ ('.' :: 'h' :: 't' :: 'm' :: 'l' :: [])⟩)])

/-- Proof helper: value of a little-endian decimal digit list. -/
def fromDec : List Nat → Nat
  | [] => 0
  | d :: ds => d + 10 * fromDec ds

/-! ### `assetFilename`: base64 of the URL, alphanumerics only, 24 chars,
plus a recognised image extension (else `.bin`) -/

/-- UTF-8 bytes of one character (models `Buffer.from(u)`, which encodes
the string as UTF-8). -/
def utf8Bytes (c : Char) : List Nat :=
  let n := c.toNat
  if n < 128 then [n]
  else if n < 2048 then [192 + n / 64, 128 + n % 64]
  else if n < 65536 then [224 + n / 4096, 128 + n / 64 % 64, 128 + n % 64]
  else [240 + n / 262144, 128 + n / 4096 % 64, 128 + n / 64 % 64, 128 + n % 64]

/-- UTF-8 byte sequence of a string. -/
def strBytes (s : Str) : List Nat := s.flatMap utf8Bytes

/-- Character of one 6-bit base64 group (standard alphabet). -/
def b64Char (n : Nat) : Char :=
  if n < 26 then Char.ofNat (65 + n)
  else if n < 52 then Char.ofNat (97 + (n - 26))
  else if n < 62 then Char.ofNat (48 + (n - 52))
  else if n = 62 then '+' else '/'

/-- Standard base64 encoding with `=` padding (models
`Buffer.prototype.toString('base64')`). -/
def base64 : List Nat → Str
  | [] => []
  | [a] => [b64Char (a / 4), b64Char (a % 4 * 16), '=', '=']
  | [a, b] => [b64Char (a / 4), b64Char (a % 4 * 16 + b / 16), b64Char (b % 16 * 4), '=']
  | a :: b :: c :: rest =>
    b64Char (a / 4) :: b64Char (a % 4 * 16 + b / 16) ::
      b64Char (b % 16 * 4 + c / 64) :: b64Char (c % 64) :: base64 rest

/-- The `match(/\.(png|jpe?g|gif|svg|webp)$/i)?.[0] || '.bin'` step: the
URL is first cut at `?` and `#`; the matched suffix keeps its original
case; otherwise the generic `.bin`. -/
def assetExt (u : Str) : Str :=
  let t := (takeUntil (fun c => c == '#') (takeUntil (fun c => c == '?') u).1).1
  let low := lowerS t
  if endsWithS low ('.' :: 'j' :: 'p' :: 'e' :: 'g' :: []) then t.drop (t.length - 5)
  else if endsWithS low ('.' :: 'p' :: 'n' :: 'g' :: []) then t.drop (t.length - 4)
  else if endsWithS low ('.' :: 'j' :: 'p' :: 'g' :: []) then t.drop (t.length - 4)
  else if endsWithS low ('.' :: 'g' :: 'i' :: 'f' :: []) then t.drop (t.length - 4)
  else if endsWithS low ('.' :: 's' :: 'v' :: 'g' :: []) then t.drop (t.length - 4)
  else if endsWithS low ('.' :: 'w' :: 'e' :: 'b' :: 'p' :: []) then t.drop (t.length - 5)
  else ('.' :: 'b' :: 'i' :: 'n' :: [])

/-- Model of `assetFilename(u)` from the source: base64 of the URL with every
non-alphanumeric dropped (`replace(/[^a-z0-9]/gi, '')`), truncated to 24
characters, then the extension. -/
def assetFilename (u : Str) : Str :=
  takeS ((base64 (strBytes u)).filter Char.isAlphanum) 24 ++ assetExt u

/-- One image download step (lines 152–157 of the script, as seen from the
asset directory): `name` is the derived filename, `assets` the files
already on disk, `dls` counts network downloads, and `ok` tells whether
the `axios` request would succeed.  The download-and-write happens only
when no file of that name exists; the returned flag says whether the
`src` rewrite that follows the `if` runs (it is skipped only when the
download was attempted and failed, because the failure jumps to `catch`). -/
def imageFetch (ok : Bool) (assets : List Str) (dls : Nat) (name : Str) :
    (List Str × Nat) × Bool :=
  if assets.contains name then ((assets, dls), true)
  else if ok then ((assets ++ [name], dls + 1), true)
  else ((assets, dls), false)

/-! ### The rendered page, the crawl state, and the crawl loop -/

/-- An anchor element as the rewrite loop sees it: `getAttribute('href')`
(`none` models a missing attribute), the link text, and the `target` /
`rel` attributes the external branch sets. -/
structure Anchor where
  href : Option Str
  text : Str
  target : Option Str := none
  rel : Option Str := none
  deriving DecidableEq

/-- The parsed rendered page: `<title>` text (`[]` models a missing
title), the anchors in document order, and the `<img src>` values. -/
structure Doc where
  title : Str
  anchors : List Anchor
  imgs : List Str
  deriving DecidableEq

/-- Outcome of `page.goto` plus the pre-extraction steps: a navigation
error / thrown exception, or a response with its `ok()` flag and the
rendered document. -/
inductive Fetched where
  | err : Fetched
  | resp : Bool → Doc → Fetched

/-- The external world: the renderer (`page.goto` … `page.content`) and
whether an `axios` download of a given absolute asset URL succeeds. -/
structure World where
  fetch : Str → Fetched
  assetOk : Str → Bool

/-- Mutable crawl state: the frontier queue, the visited map (insertion
ordered, like a JS `Map`), the saved HTML files keyed by filename, the
asset directory contents, the number of network downloads performed, and
the log of URLs passed to `page.goto` (the `→ Visiting` lines). -/
structure CrawlState where
  queue : List Str
  visited : List (Str × PageMeta)
  saved : List (Str × Doc)
  assets : List Str
  downloads : Nat
  log : List Str
  deriving DecidableEq

/-- Key lookup in the visited map (`visited.get`). -/
def findMeta (v : List (Str × PageMeta)) (k : Str) : Option PageMeta :=
  (v.find? (fun p => p.1 == k)).map (fun p => p.2)

/-- Key membership in the visited map (`visited.has`). -/
def hasKey (v : List (Str × PageMeta)) (k : Str) : Bool :=
  v.any (fun p => p.1 == k)

/-- Write-or-overwrite a saved file (`fs.writeFileSync`). -/
def putFile (k : Str) (d : Doc) : List (Str × Doc) → List (Str × Doc)
  | [] => [(k, d)]
  | e :: es => if e.1 == k then (k, d) :: es else e :: putFile k d es

/-- The provisional filename guess of lines 130–131: slugify the anchor's
own text (defaulting to `page` before and after trimming and after
slugification), truncate to 60, append `.html`. -/
def guessFilename (text : Str) : Str :=
  let t0 := if text.isEmpty then ('p' :: 'a' :: 'g' :: 'e' :: []) else text
  let t1 := if (trimS t0).isEmpty then ('p' :: 'a' :: 'g' :: 'e' :: []) else trimS t0
  let g0 := takeS (slugify t1) 60
  let g := if g0.isEmpty then ('p' :: 'a' :: 'g' :: 'e' :: []) else g0
  g ++ ('.' :: 'h' :: 't' :: 'm' :: 'l' :: [])

/-- One pass of the anchor-rewrite loop body (lines 119–141) over a single
anchor: resolve the href against the page URL; on success either rewrite
an in-scope link to a local filename (real if known, guessed otherwise)
and enqueue the normalized target if it is neither visited nor queued, or
mark an out-of-scope link to open in a new browsing context.  Any
resolution failure is caught and leaves both the element and the queue
untouched. -/
def rewriteAnchor (host : Str) (visited : List (Str × PageMeta)) (urlObj : JSURL)
    (q : List Str) (a : Anchor) : Anchor × List Str :=
  match a.href with
  | none => (a, q)
  | some h =>
    if h.isEmpty then (a, q)
    else
      match jsResolve h urlObj with
      | none => (a, q)
      | some absU =>
        let abs := urlString absU
        let nh := normalizeUrl abs
        match parseURL abs with
        | none => (a, q)
        | some x =>
          if x.host == host && isNotionPage abs then
            let mapped := match findMeta visited nh with
              | some m => m.filename
              | none => guessFilename a.text
            let q' := if !(hasKey visited nh) && !(q.contains nh) then q ++ [nh] else q
            ({ a with href := some mapped }, q')
          else
            ({ a with target := some ('_' :: 'b' :: 'l' :: 'a' :: 'n' :: 'k' :: [])
                      rel := some "noopener noreferrer".toList }, q)

/-- The whole `root.querySelectorAll('a').forEach(...)` loop, threading the
queue through the anchors in document order. -/
def rewriteAnchors (host : Str) (visited : List (Str × PageMeta)) (urlObj : JSURL) :
    List Anchor → List Str → List Anchor × List Str
  | [], q => ([], q)
  | a :: as, q =>
    let r := rewriteAnchor host visited urlObj q a
    let rs := rewriteAnchors host visited urlObj as r.2
    (r.1 :: rs.1, rs.2)

/-- One image of the download block (lines 148–165): resolve the `src`
against the page URL (failure caught, nothing happens), derive the asset
name, download unless the file exists, and rewrite every `img` with that
exact `src` to `assets/<name>` — unless the download failed, in which
case the rewrite is skipped too.  The `Promise.all` over the page's
distinct image set is modelled as a sequential fold. -/
def processImage (w : World) (urlObj : JSURL) (st : Doc × List Str × Nat)
    (src : Str) : Doc × List Str × Nat :=
  match jsResolve src urlObj with
  | none => st
  | some absU =>
    let abs := urlString absU
    let name := assetFilename abs
    let r := imageFetch (w.assetOk abs) st.2.1 st.2.2 name
    if r.2 then
      ({ st.1 with imgs := st.1.imgs.map (fun s => if s == src then
          ('a' :: 's' :: 's' :: 'e' :: 't' :: 's' :: '/' :: []) ++ name else s) },
        r.1.1, r.1.2)
    else (st.1, r.1.1, r.1.2)

/-- The safety cap (`const MAX_PAGES = 150`). -/
def MAX_PAGES : Nat := 150

/-- The `while` condition of line 70: `queue.length && visited.size < MAX_PAGES`. -/
def loopCond (s : CrawlState) : Bool :=
  !s.queue.isEmpty && decide (s.visited.length < MAX_PAGES)

/-- The title cleanup of lines 105–106: take the `<title>` text (default
`page`), strip a trailing ` – Notion`, trim, default `page` again. -/
def pageTitle (raw : Str) : Str :=
  let t0 := if (trimS raw).isEmpty then ('p' :: 'a' :: 'g' :: 'e' :: []) else trimS raw
  let t1 := trimS (if endsWithS t0 " – Notion".toList then dropRightS t0 9 else t0)
  if t1.isEmpty then ('p' :: 'a' :: 'g' :: 'e' :: []) else t1

/-- One iteration of the crawl loop body (lines 71–178), to be run only
when `loopCond` holds: dequeue; skip if already visited; log and fetch;
on a navigation error or non-ok status just continue (nothing records the
skip); otherwise compute title, slug and filename, rewrite the anchors
(growing the queue), download the images, save the page, and record the
visit.  Exceptions thrown before the rewrite (navigation, rendering,
`new URL(url)`) are caught by the page-level `try/catch` and skip the
page.  `injectMinimalBundle` only appends a constant stylesheet and
script containing no URLs, so it is the identity on the structured
document model. -/
def crawlStep (w : World) (host : Str) (s : CrawlState) : CrawlState :=
  match s.queue with
  | [] => s
  | url :: rest =>
    if hasKey s.visited url then { s with queue := rest }
    else
      let s1 := { s with queue := rest, log := s.log ++ [url] }
      match w.fetch url with
      | .err => s1
      | .resp false _ => s1
      | .resp true doc =>
        match parseURL url with
        | none => s1
        | some urlObj =>
          let title := pageTitle doc.title
          let slug := uniqueSlug title s.visited
          let filename := slug ++ ('.' :: 'h' :: 't' :: 'm' :: 'l' :: [])
          let images := (doc.imgs.filter (fun i => !i.isEmpty)).eraseDups
          let ra := rewriteAnchors host s.visited urlObj doc.anchors s1.queue
          let doc1 := { doc with anchors := ra.1 }
          let di := images.foldl (processImage w urlObj) (doc1, s1.assets, s1.downloads)
          { queue := ra.2
            visited := s.visited ++ [(url, ⟨title, filename⟩)]
            saved := putFile filename di.1 s1.saved
            assets := di.2.1
            downloads := di.2.2
            log := s1.log }

/-- The crawl loop with fuel: step while `loopCond` holds. -/
def crawlRun (w : World) (host : Str) : Nat → CrawlState → CrawlState
  | 0, s => s
  | fuel + 1, s => if loopCond s then crawlRun w host fuel (crawlStep w host s) else s

/-! ### The post-crawl link fixup pass (lines 183–194) -/

/-- Apply one textual substitution `u2 → m2.filename` to a saved document:
the real pass is a regex replace over the serialised HTML, so every
string field of the document is rewritten. -/
def substDoc (u2 fn : Str) (d : Doc) : Doc :=
  { title := replaceAllLit u2 fn d.title
    anchors := d.anchors.map (fun a =>
      { a with href := a.href.map (replaceAllLit u2 fn)
               text := replaceAllLit u2 fn a.text })
    imgs := d.imgs.map (replaceAllLit u2 fn) }

/-- Run every visited page's substitution, in visited (insertion) order,
over one document — the inner `for (const [u2, m2] of visited)` loop. -/
def fixupDoc (visited : List (Str × PageMeta)) (d : Doc) : Doc :=
  visited.foldl (fun acc e => substDoc e.1 e.2.filename acc) d

/-- The outer fixup loop: for every visited entry, rewrite the file it
persisted.  (Every visited filename was written by the crawl, so the
`readFileSync` never misses; a missing file is left alone here.) -/
def fixupPass (visited : List (Str × PageMeta)) (saved : List (Str × Doc)) :
    List (Str × Doc) :=
  visited.foldl (fun acc e =>
    match (acc.find? (fun f => f.1 == e.2.filename)).map (fun f => f.2) with
    | none => acc
    | some d => putFile e.2.filename (fixupDoc visited d) acc) saved

/-- The whole program on a given world and seed URL: fail fast on a
malformed seed (`process.exit(1)`), else crawl from the normalized seed
with the seed's host as the scope host, then run the fixup pass. -/
def runClone (w : World) (startUrl : Str) (fuel : Nat) : Option CrawlState :=
  match parseURL startUrl with
  | none => none
  | some u =>
    let s0 : CrawlState := ⟨[normalizeUrl startUrl], [], [], [], 0, []⟩
    let s1 := crawlRun w u.host fuel s0
    some { s1 with saved := fixupPass s1.visited s1.saved }

/-- Proof helper: the fragment-independent part of parsing `p ++ '#' :: f`
when the first `:` of `p` is followed by `R'` — used to show that
`normalizeUrl` ignores everything behind the first `#`. -/
def parseFix (p R' : Str) : Option JSURL :=
  match R' with
  | '/' :: '/' :: rest =>
    let A := (takeUntil (fun c => c == ':') p).1
    if A.isEmpty || !(A.all Char.isAlpha) then none
    else
      let h := takeUntil (fun c => c == '/' || c == '?' || c == '#') rest
      if h.1.isEmpty then none
      else
        let pp := takeUntil (fun c => c == '?' || c == '#') h.2
        let qq := takeUntil (fun c => c == '#') pp.2
        some { scheme := lowerS A
               host := lowerS h.1
               pathname := if pp.1.isEmpty then ['/'] else pp.1
               search := qq.1
               hash := [] }
  | _ => none

/-! ### Concrete crawl scenarios used by counterexamples and witnesses -/

/-- C1 scenario: seed page. -/
def seedU1 : Str := "https://h/s-0123456789abcdef0123456789abcdef".toList

/-- C1 scenario: the second, forward-linked page. -/
def pageU1 : Str := "https://h/p-0123456789abcdef0123456789abcdef".toList

/-- C1 scenario (spec scenario A): the seed links to a second in-scope page
(visited later) and to one external page; the second page's title slugifies
to `second-page`, while the anchor text on the seed slugifies to `second`. -/
def world1 : World :=
  { fetch := fun u =>
      if u == seedU1 then .resp true ⟨"Start".toList,
        [⟨some pageU1, "Second".toList, none, none⟩,
         ⟨some "https://ext.example/x".toList, "Ext".toList, none, none⟩], []⟩
      else if u == pageU1 then .resp true ⟨"Second Page".toList, [], []⟩
      else .err
    assetOk := fun _ => true }

/-- C2 scenario: seed page. -/
def seedU2 : Str := "https://h/s-0123456789abcdef0123456789abcdef".toList

/-- C2 scenario: the page whose fetch fails (skipped). -/
def skipU2 : Str := "https://h/b-0123456789abcdef0123456789abcdef".toList

/-- C2 scenario: a later page that links to the skipped one. -/
def lateU2 : Str := "https://h/c-0123456789abcdef0123456789abcdef".toList

/-- C2 scenario: the seed links to a failing page and a succeeding page; the
succeeding page links back to the failing one. -/
def world2 : World :=
  { fetch := fun u =>
      if u == seedU2 then .resp true ⟨"Start".toList,
        [⟨some skipU2, "B".toList, none, none⟩,
         ⟨some lateU2, "C".toList, none, none⟩], []⟩
      else if u == skipU2 then .resp false ⟨[], [], []⟩
      else if u == lateU2 then .resp true ⟨"C page".toList,
        [⟨some skipU2, "B".toList, none, none⟩], []⟩
      else .err
    assetOk := fun _ => true }

/-- C3 scenario: seed page. -/
def seedU3 : Str := "https://h/s-0123456789abcdef0123456789abcdef".toList

/-- C3 scenario: the shared hyphen-plus-32-hex tail of the failing URLs. -/
def hexTail : Str := "-0123456789abcdef0123456789abcdef".toList

/-- C3 scenario: the `k`-th of the 150 failing pages the seed links to. -/
def failU3 (k : Nat) : Str := "https://h/f".toList ++ natDecimal k ++ hexTail

/-- C3 scenario: the seed page's rendered document, with 150 in-scope
anchors `f1 … f150`. -/
def seedDoc3 : Doc :=
  ⟨"Start".toList,
    (List.range 150).map (fun j => ⟨some (failU3 (j + 1)), "x".toList, none, none⟩), []⟩

/-- C3 scenario: only the seed renders; every other fetch returns a
non-success status.  The run makes 1 + 150 = 151 `goto` attempts while
only one page is ever persisted — the attempted count passes the
150-page cap and the loop keeps visiting queued URLs. -/
def world3 : World :=
  { fetch := fun u => if u == seedU3 then .resp true seedDoc3 else .resp false ⟨[], [], []⟩
    assetOk := fun _ => true }

/-- C3 scenario: the finished crawl (the fuel exceeds the iteration count,
so the loop really drained its frontier). -/
def crawl3 : CrawlState := crawlRun world3 "h".toList 155 ⟨[seedU3], [], [], [], 0, []⟩

/-- C3 scenario: the indices `1 … 150` of the failing pages. -/
def ks150 : List Nat := (List.range 150).map (fun j => j + 1)

/-- C3 scenario: the visited-map entry the seed page produces. -/
def seedMeta3 : PageMeta := ⟨"Start".toList, "start.html".toList⟩

/-- C3 scenario: the 32 hexadecimal characters shared by every page id. -/
def hexCore : Str := "0123456789abcdef0123456789abcdef".toList

/-- C3 scenario: the parsed seed URL (the `urlObj` of the seed iteration). -/
def seedObj3 : JSURL :=
  ⟨"https".toList, ['h'], "/s-0123456789abcdef0123456789abcdef".toList, [], []⟩

/-- C9 scenario: seed page. -/
def seedU9 : Str := "https://h/s-0123456789abcdef0123456789abcdef".toList

/-- C9 scenario: the seed page links to itself. -/
def world9 : World :=
  { fetch := fun u =>
      if u == seedU9 then .resp true ⟨"Start".toList,
        [⟨some seedU9, "me".toList, none, none⟩], []⟩
      else .err
    assetOk := fun _ => true }

/-- C8 scenario: the page URL against which the out-of-scope anchor
`/about` is resolved. -/
def baseU8 : JSURL :=
  ⟨"https".toList, "h".toList, "/s-0123456789abcdef0123456789abcdef".toList, [], []⟩

/-! ## Helper lemmas -/

theorem takeUntil_append (q : Char → Bool) (a z : Str) :
    takeUntil q (a ++ z) =
      if (takeUntil q a).2.isEmpty then
        ((takeUntil q a).1 ++ (takeUntil q z).1, (takeUntil q z).2)
      else ((takeUntil q a).1, (takeUntil q a).2 ++ z) := by
  induction a with
  | nil => simp [takeUntil]
  | cons c cs ih =>
    by_cases hc : q c
    · simp [takeUntil, hc]
    · simp only [List.cons_append, takeUntil, hc, Bool.false_eq_true, if_false, ih]
      by_cases h2 : (takeUntil q cs).2.isEmpty <;> simp [h2, ih]

theorem takeUntil_hash (q : Char → Bool) (hq : q '#' = true) (a b : Str) :
    takeUntil q (a ++ '#' :: b) = ((takeUntil q a).1, (takeUntil q a).2 ++ '#' :: b) := by
  rw [takeUntil_append]
  by_cases h : (takeUntil q a).2.isEmpty
  · rw [List.isEmpty_iff] at h
    simp [h, takeUntil, hq]
  · simp [h]

theorem takeUntil_snd_shape (q : Char → Bool) (l : Str) :
    (takeUntil q l).2 = [] ∨ ∃ c cs, (takeUntil q l).2 = c :: cs ∧ q c = true := by
  induction l with
  | nil => left; rfl
  | cons c cs ih =>
    by_cases hc : q c
    · right; exact ⟨c, cs, by simp [takeUntil, hc], hc⟩
    · simpa [takeUntil, hc] using ih

theorem all_alpha_hash_false (a b : Str) :
    ((a ++ '#' :: b).all Char.isAlpha) = false := by
  simp only [List.all_append, List.all_cons]
  have : Char.isAlpha '#' = false := by decide
  simp [this]

theorem parse_hash_none (p f : Str)
    (h0 : (takeUntil (fun c => c == ':') p).2 = []) :
    parseURL (p ++ '#' :: f) = none := by
  have ha := takeUntil_append (fun c => c == ':') p ('#' :: f)
  rw [h0] at ha
  simp only [List.isEmpty_nil, if_true] at ha
  have hh : takeUntil (fun c => c == ':') ('#' :: f) =
      ('#' :: (takeUntil (fun c => c == ':') f).1, (takeUntil (fun c => c == ':') f).2) := by
    simp [takeUntil]
  rw [hh] at ha
  unfold parseURL
  rw [ha]
  dsimp only
  split
  · rename_i heq
    rw [all_alpha_hash_false]
    simp
  · rfl

theorem parse_hash_colon (p f R' : Str)
    (h0 : (takeUntil (fun c => c == ':') p).2 = ':' :: R') :
    (parseURL (p ++ '#' :: f)).map (fun x => { x with hash := [] }) = parseFix p R' := by
  have ha := takeUntil_append (fun c => c == ':') p ('#' :: f)
  rw [h0] at ha
  simp only [List.isEmpty_cons, if_false, Bool.false_eq_true] at ha
  unfold parseURL
  rw [ha]
  rcases R' with _ | ⟨d, R₂⟩
  · simp only [List.nil_append]
    split
    · rename_i heq
      simp at heq
    · rfl
  · rcases R₂ with _ | ⟨e, R''⟩
    · simp only [List.cons_append, List.nil_append]
      split
      · rename_i heq
        simp at heq
      · show (none : Option JSURL) = parseFix p [d]
        unfold parseFix
        split
        · rename_i heq
          simp at heq
        · rfl
    · by_cases hde : d = '/' ∧ e = '/'
      · obtain ⟨hd, he⟩ := hde
        subst hd
        subst he
        show _ = parseFix p ('/' :: '/' :: R'')
        unfold parseFix
        simp only [List.cons_append]
        rw [takeUntil_hash (fun c => c == '/' || c == '?' || c == '#') (by decide) R'']
        by_cases hA : ((takeUntil (fun c => c == ':') p).1.isEmpty
            || !((takeUntil (fun c => c == ':') p).1.all Char.isAlpha)) = true
        · simp [hA]
        · simp only [hA, Bool.false_eq_true, if_false]
          by_cases hH : (takeUntil (fun c => c == '/' || c == '?' || c == '#') R'').1.isEmpty
          · simp [hH]
          · simp only [hH, Bool.false_eq_true, if_false]
            rw [takeUntil_hash (fun c => c == '?' || c == '#') (by decide)]
            rw [takeUntil_hash (fun c => c == '#') (by decide)]
            simp
      · have h1 : parseFix p (d :: e :: R'') = none := by
          unfold parseFix
          split
          · rename_i heq
            injection heq with h2 h4
            injection h4 with h3 h5
            exact absurd ⟨h2, h3⟩ hde
          · rfl
        rw [h1]
        simp only [List.cons_append]
        split
        · rename_i heq
          injection heq with h2 h4
          injection h4 with h5 h6
          injection h6 with h7 h8
          exact absurd ⟨h5, h7⟩ hde
        · rfl

theorem hasHex32_iff (l : Str) :
    hasHex32 l = true ↔ ∃ pre mid post, l = pre ++ mid ++ post ∧
      mid.length = 32 ∧ mid.all isHexDigit = true := by
  induction l with
  | nil =>
    simp only [hasHex32, Bool.false_eq_true, false_iff]
    rintro ⟨pre, mid, post, hl, hlen, -⟩
    have := congrArg List.length hl
    simp at this
    omega
  | cons c t ih =>
    simp only [hasHex32, Bool.or_eq_true, Bool.and_eq_true, decide_eq_true_eq]
    constructor
    · rintro (⟨hlen, hall⟩ | h2)
      · refine ⟨[], (c :: t).take 32, (c :: t).drop 32, ?_, ?_, hall⟩
        · simp
        · rw [List.length_take]
          exact Nat.min_eq_left hlen
      · obtain ⟨pre, mid, post, hl, hlen, hall⟩ := ih.mp h2
        exact ⟨c :: pre, mid, post, by simp [hl], hlen, hall⟩
    · rintro ⟨pre, mid, post, hl, hlen, hall⟩
      cases pre with
      | nil =>
        simp only [List.nil_append] at hl
        left
        have hlen32 : 32 ≤ (c :: t).length := by
          rw [hl]
          simp
          omega
        refine ⟨hlen32, ?_⟩
        have htake : (c :: t).take 32 = mid := by
          rw [hl, ← hlen]
          exact List.take_left mid post
        rw [htake]
        exact hall
      | cons p pre' =>
        right
        apply ih.mpr
        refine ⟨pre', mid, post, ?_, hlen, hall⟩
        have := hl
        simp only [List.cons_append] at this
        injection this with h1 h2

/-! ## C4 — the Slug/Filename Allocator -/

theorem decDigits_spec : ∀ (fuel n : Nat), n < fuel → fromDec (decDigits fuel n) = n := by
  intro fuel
  induction fuel with
  | zero => intro n h; omega
  | succ fuel ih =>
    intro n h
    by_cases hn : n < 10
    · simp [decDigits, hn, fromDec]
    · have h1 : n / 10 < n := Nat.div_lt_self (by omega) (by omega)
      simp only [decDigits, hn, if_false, fromDec]
      rw [ih (n / 10) (by omega)]
      exact Nat.mod_add_div n 10

theorem decDigits_bound : ∀ (fuel n d : Nat), d ∈ decDigits fuel n → d < 10 := by
  intro fuel
  induction fuel with
  | zero => intro n d h; simp [decDigits] at h
  | succ fuel ih =>
    intro n d h
    by_cases hn : n < 10
    · simp [decDigits, hn] at h
      omega
    · simp only [decDigits, hn, if_false, List.mem_cons] at h
      rcases h with h | h
      · have := Nat.mod_lt n (show 0 < 10 by omega)
        omega
      · exact ih _ _ h

theorem digitCh_inj_lt :
    ∀ a, a < 10 → ∀ b, b < 10 → digitCh a = digitCh b → a = b := by decide

theorem map_digitCh_inj : ∀ (l₁ l₂ : List Nat), (∀ d ∈ l₁, d < 10) → (∀ d ∈ l₂, d < 10) →
    l₁.map digitCh = l₂.map digitCh → l₁ = l₂ := by
  intro l₁
  induction l₁ with
  | nil => intro l₂ _ _ h; cases l₂ <;> simp_all
  | cons d ds ih =>
    intro l₂ h1 h2 h
    cases l₂ with
    | nil => simp at h
    | cons e es =>
      simp only [List.map_cons, List.cons.injEq] at h
      have hd : d = e := digitCh_inj_lt d (h1 d (by simp)) e (h2 e (by simp)) h.1
      have : ds = es := ih es (fun x hx => h1 x (by simp [hx])) (fun x hx => h2 x (by simp [hx])) h.2
      rw [hd, this]

theorem natDecimal_inj (m n : Nat) (h : natDecimal m = natDecimal n) : m = n := by
  unfold natDecimal at h
  have h1 := List.reverse_injective h
  have h2 := map_digitCh_inj (decDigits (m + 1) m) (decDigits (n + 1) n)
    (fun d hd => decDigits_bound _ _ _ hd) (fun d hd => decDigits_bound _ _ _ hd) h1
  have h3 := congrArg fromDec h2
  rwa [decDigits_spec (m + 1) m (by omega), decDigits_spec (n + 1) n (by omega)] at h3

theorem cand_inj (b : Str) : ∀ i j, cand b i = cand b j → i = j := by
  intro i j h
  cases i with
  | zero =>
    cases j with
    | zero => rfl
    | succ j =>
      have := congrArg List.length h
      simp [cand, List.length_append] at this
  | succ i =>
    cases j with
    | zero =>
      have := congrArg List.length h
      simp [cand, List.length_append] at this
    | succ j =>
      simp only [cand] at h
      have h1 := List.append_cancel_left h
      injection h1 with _ h2
      have := natDecimal_inj (i + 2) (j + 2) h2
      omega

theorem cand_mem (b : Str) (j k : Nat) (h : j < k) : cand b j ∈ candList b k := by
  simp only [candList, List.mem_map]
  exact ⟨j, by simp [List.mem_range, h]⟩

theorem cand_not_mem (b : Str) (k : Nat) : cand b k ∉ candList b k := by
  intro hmem
  simp only [candList, List.mem_map, List.mem_range] at hmem
  obtain ⟨j, hj, heq⟩ := hmem
  have := cand_inj b j k heq
  omega

theorem slugSearch_loop (b : Str) (k : Nat) :
    ∀ (fuel j : Nat), j ≤ k → k - j < fuel →
      slugSearch b (candList b k) fuel (cand b j) (j + 2) = cand b k := by
  intro fuel
  induction fuel with
  | zero => intro j h1 h2; omega
  | succ fuel ih =>
    intro j hj hf
    by_cases hjk : j = k
    · subst hjk
      have hnm : cand b j ∉ candList b j := cand_not_mem b j
      simp [slugSearch, hnm]
    · have hlt : j < k := by omega
      have hmem : cand b j ∈ candList b k := cand_mem b j k hlt
      have hc : (candList b k).contains (cand b j) = true := by simpa using hmem
      simp only [slugSearch, hc, if_true]
      exact ih (j + 1) (by omega) (by omega)

theorem stripHtmlExt_append (s : Str) :
    stripHtmlExt (s ++ ('.' :: 'h' :: 't' :: 'm' :: 'l' :: [])) = s := by
  unfold stripHtmlExt endsWithS dropRightS
  have hlen : (s ++ ('.' :: 'h' :: 't' :: 'm' :: 'l' :: [])).length = s.length + 5 := by
    simp [List.length_append]
  have hsub : s.length + 5 - 5 = s.length := by omega
  have hdrop : (s ++ ('.' :: 'h' :: 't' :: 'm' :: 'l' :: [])).drop s.length =
      ('.' :: 'h' :: 't' :: 'm' :: 'l' :: []) := List.drop_left s _
  have htake : (s ++ ('.' :: 'h' :: 't' :: 'm' :: 'l' :: [])).take s.length = s :=
    List.take_left s _
  simp [hlen, hsub, hdrop, htake]

theorem uniqueSlug_cands (t b : Str) (vis : List (Str × PageMeta)) (k : Nat)
    (ht : baseOf t = b)
    (hvis : vis.map (fun p => stripHtmlExt p.2.filename) = candList b k) :
    uniqueSlug t vis = cand b k := by
  show slugSearch (baseOf t) (vis.map (fun p => stripHtmlExt p.2.filename))
      ((vis.map (fun p => stripHtmlExt p.2.filename)).length + 1) (baseOf t) 2 = cand b k
  rw [ht, hvis]
  have hlen : (candList b k).length = k := by simp [candList]
  rw [hlen]
  exact slugSearch_loop b k (k + 1) 0 (by omega) (by omega)

theorem candList_succ (b : Str) (k : Nat) :
    candList b (k + 1) = candList b k ++ [cand b k] := by
  simp [candList, List.range_succ]

theorem nodup_subset_length {l₁ l₂ : List Str} (h₁ : l₁.Nodup) (h₂ : l₁ ⊆ l₂) :
    l₁.length ≤ l₂.length := by
  calc l₁.length = l₁.toFinset.card := (List.toFinset_card_of_nodup h₁).symm
    _ ≤ l₂.toFinset.card := Finset.card_le_card (fun x hx => by
        rw [List.mem_toFinset] at hx ⊢
        exact h₂ hx)
    _ ≤ l₂.length := List.toFinset_card_le l₂

theorem slugSearch_avoid (b : Str) (used : List Str) :
    ∀ (fuel j : Nat),
      (∀ m : Nat, (∀ t, t < m → cand b (j + t) ∈ used) → m < fuel) →
      slugSearch b used fuel (cand b j) (j + 2) ∉ used := by
  intro fuel
  induction fuel with
  | zero =>
    intro j hcard
    have := hcard 0 (fun t ht => absurd ht (by omega))
    omega
  | succ fuel ih =>
    intro j hcard
    by_cases hc : cand b j ∈ used
    · have hcontains : used.contains (cand b j) = true := by simpa using hc
      simp only [slugSearch, hcontains, if_true]
      exact ih (j + 1) (fun m hm => by
        have := hcard (m + 1) (fun t ht => by
          cases t with
          | zero => simpa using hc
          | succ t' =>
            have h3 := hm t' (by omega)
            have h4 : j + 1 + t' = j + (t' + 1) := by omega
            rw [h4] at h3
            exact h3)
        omega)
    · have hcontains : used.contains (cand b j) = false := by simpa using hc
      simp only [slugSearch, hcontains, Bool.false_eq_true, if_false]
      exact hc

theorem uniqueSlug_fresh (t : Str) (vis : List (Str × PageMeta)) :
    uniqueSlug t vis ∉ vis.map (fun p => stripHtmlExt p.2.filename) := by
  show slugSearch (baseOf t) (vis.map (fun p => stripHtmlExt p.2.filename))
      ((vis.map (fun p => stripHtmlExt p.2.filename)).length + 1) (baseOf t) 2 ∉
      vis.map (fun p => stripHtmlExt p.2.filename)
  have h := slugSearch_avoid (baseOf t) (vis.map (fun p => stripHtmlExt p.2.filename))
    ((vis.map (fun p => stripHtmlExt p.2.filename)).length + 1) 0 (fun m hm => by
      have hn : ((List.range' 0 m).map (cand (baseOf t))).Nodup :=
        List.Nodup.map (fun x y hxy => cand_inj (baseOf t) x y hxy) (List.nodup_range' 0 m)
      have hsub : ((List.range' 0 m).map (cand (baseOf t))) ⊆
          vis.map (fun p => stripHtmlExt p.2.filename) := by
        intro x hx
        rw [List.mem_map] at hx
        obtain ⟨k, hk, rfl⟩ := hx
        rw [List.mem_range'] at hk
        obtain ⟨i, hi, rfl⟩ := hk
        rw [show (0 + 1 * i) = 0 + i by omega]
        exact hm i hi
      have hlen := nodup_subset_length hn hsub
      simp only [List.length_map, List.length_range'] at hlen ⊢
      omega)
  exact h

theorem allocSeq_pattern (b : Str) : ∀ (ts : List Str) (vis : List (Str × PageMeta)) (k : Nat),
    (∀ t ∈ ts, baseOf t = b) →
    vis.map (fun p => stripHtmlExt p.2.filename) = candList b k →
    allocSeq ts vis = (List.range' k ts.length).map (cand b) := by
  intro ts
  induction ts with
  | nil => intro vis k _ _; rfl
  | cons t ts ih =>
    intro vis k hb hvis
    have h1 : uniqueSlug t vis = cand b k :=
      uniqueSlug_cands t b vis k (hb t (by simp)) hvis
    have h2 : (vis ++ [((([] : Str),
        ⟨t, uniqueSlug t vis ++ ('.' :: 'h' :: 't' :: 'm' :: 'l' :: [])⟩) : Str × PageMeta)]).map
        (fun p => stripHtmlExt p.2.filename) = candList b (k + 1) := by
      rw [List.map_append, hvis, candList_succ]
      simp only [List.map_cons, List.map_nil]
      rw [h1, stripHtmlExt_append]
    have h3 := ih _ (k + 1) (fun x hx => hb x (by simp [hx])) h2
    simp only [allocSeq]
    rw [h3, h1]
    rfl

/-- C4: titles that share one base slug are allocated the pairwise-distinct
slugs `base`, `base-2`, `base-3`, … in first-seen order, each call of the
allocator seeing the filenames recorded so far; moreover the allocator
never returns a name already used by any visited entry, so every recorded
filename is unique within the run. -/
theorem c4_slug_allocator (ts : List Str) (b : Str) (hb : ∀ t ∈ ts, baseOf t = b) :
    (allocSeq ts [] = (List.range ts.length).map (cand b) ∧ (allocSeq ts []).Nodup) ∧
    (∀ (t : Str) (vis : List (Str × PageMeta)),
      uniqueSlug t vis ∉ vis.map (fun p => stripHtmlExt p.2.filename)) := by
  have h := allocSeq_pattern b ts [] 0 hb (by rfl)
  refine ⟨⟨?_, ?_⟩, fun t vis => uniqueSlug_fresh t vis⟩
  · rw [h, List.range_eq_range']
  · rw [h]
    exact List.Nodup.map (fun i j hij => cand_inj b i j hij) (List.nodup_range' 0 ts.length)

/-- Witness for C4: three titles with base slug `my-page`. -/
theorem c4_slug_allocator_witness :
    allocSeq ["My Page".toList, "my page!".toList, "MY  page".toList] [] =
      ["my-page".toList, "my-page-2".toList, "my-page-3".toList] ∧
    (allocSeq ["My Page".toList, "my page!".toList, "MY  page".toList] []).Nodup := by
  have h := c4_slug_allocator ["My Page".toList, "my page!".toList, "MY  page".toList]
    "my-page".toList (by decide)
  exact ⟨by rw [h.1.1]; rfl, h.1.2⟩

/-! ## C5 — the URL Normalizer -/

/-- C5: the URL Normalizer (i) maps any two URL strings that differ only in
their fragment to the identical string (whenever the URL parses at all),
(ii) returns malformed input unchanged rather than failing, and (iii) on
well-formed input returns the serialisation of the parsed URL with the
fragment cleared — an absolute URL string with the fragment removed.  (As
a Lean function it is pure by construction, which covers the determinism
part of the claim.) -/
theorem c5_url_normalizer :
    (∀ p f₁ f₂ : Str, (parseURL (p ++ '#' :: f₁)).isSome = true →
      normalizeUrl (p ++ '#' :: f₁) = normalizeUrl (p ++ '#' :: f₂)) ∧
    (∀ u : Str, parseURL u = none → normalizeUrl u = u) ∧
    (∀ (u : Str) (x : JSURL), parseURL u = some x →
      normalizeUrl u = urlString { x with hash := [] }) := by
  refine ⟨?_, ?_, ?_⟩
  · intro p f₁ f₂ hs
    have key : (parseURL (p ++ '#' :: f₁)).map (fun x => { x with hash := ([] : Str) }) =
        (parseURL (p ++ '#' :: f₂)).map (fun x => { x with hash := ([] : Str) }) := by
      rcases takeUntil_snd_shape (fun c => c == ':') p with h0 | ⟨c, cs, h1, hc⟩
      · rw [parse_hash_none p f₁ h0, parse_hash_none p f₂ h0]
      · have hc' : c = ':' := by simpa using hc
        subst hc'
        rw [parse_hash_colon p f₁ cs h1, parse_hash_colon p f₂ cs h1]
    cases hp1 : parseURL (p ++ '#' :: f₁) with
    | none => rw [hp1] at hs; simp at hs
    | some x₁ =>
      rw [hp1] at key
      cases hp2 : parseURL (p ++ '#' :: f₂) with
      | none => rw [hp2] at key; simp at key
      | some x₂ =>
        rw [hp2] at key
        simp only [Option.map_some', Option.some.injEq] at key
        unfold normalizeUrl
        rw [hp1, hp2]
        dsimp only
        rw [key]
  · intro u hu
    unfold normalizeUrl
    rw [hu]
  · intro u x hx
    unfold normalizeUrl
    rw [hx]

/-- Witness for C5 at concrete inputs. -/
theorem c5_url_normalizer_witness :
    normalizeUrl ("https://h/p".toList ++ '#' :: ['a']) =
      normalizeUrl ("https://h/p".toList ++ '#' :: ['b']) ∧
    normalizeUrl "zzz".toList = "zzz".toList ∧
    normalizeUrl "https://h/p#a".toList =
      urlString ⟨"https".toList, "h".toList, "/p".toList, [], []⟩ :=
  ⟨c5_url_normalizer.1 "https://h/p".toList ['a'] ['b'] (by decide),
   c5_url_normalizer.2.1 "zzz".toList (by decide),
   c5_url_normalizer.2.2 "https://h/p#a".toList
     ⟨"https".toList, "h".toList, "/p".toList, [], ['a']⟩ (by decide)⟩

/-! ## C6 — the Page Classifier -/

/-- C6: a URL is in scope exactly when it parses, its host equals the
target host, and its hyphen-stripped path contains a 32-character
hexadecimal identifier; a URL with a different host is out of scope
whatever its path; a malformed URL is out of scope rather than an error. -/
theorem c6_page_classifier (host u : Str) :
    (inScope host u = true ↔ ∃ x, parseURL u = some x ∧ x.host = host ∧
      ∃ pre mid post, x.pathname.filter (fun c => !(c == '-')) = pre ++ mid ++ post ∧
        mid.length = 32 ∧ mid.all isHexDigit = true) ∧
    (∀ x, parseURL u = some x → x.host ≠ host → inScope host u = false) ∧
    (parseURL u = none → inScope host u = false) := by
  refine ⟨?_, ?_, ?_⟩
  · cases hp : parseURL u with
    | none => simp [inScope, hp]
    | some x =>
      simp [inScope, isNotionPage, hp, hasHex32_iff, beq_iff_eq, and_assoc]
  · intro x hx hne
    simp [inScope, hx, beq_iff_eq, hne]
  · intro hu
    simp [inScope, hu]

/-- Witness for C6 at concrete inputs. -/
theorem c6_page_classifier_witness :
    inScope "h".toList "https://other/s-0123456789abcdef0123456789abcdef".toList = false ∧
    inScope "h".toList "%%bad url".toList = false :=
  ⟨(c6_page_classifier "h".toList
      "https://other/s-0123456789abcdef0123456789abcdef".toList).2.1
      ⟨"https".toList, "other".toList,
        "/s-0123456789abcdef0123456789abcdef".toList, [], []⟩
      (by decide) (by decide),
   (c6_page_classifier "h".toList "%%bad url".toList).2.2 (by decide)⟩

/-! ## C7 — the Asset Fetcher -/

/-- C7: fetching the same asset URL twice performs exactly one network
download and both fetches resolve to the same derived name
`assetFilename u` (a function of the URL string alone); the
download-and-write happens only when no file of that name exists — the
second fetch changes nothing, an already-present file is never
re-fetched or overwritten. -/
theorem c7_asset_fetch_idempotent (u : Str) (assets : List Str) (dls : Nat) :
    (imageFetch true (imageFetch true assets dls (assetFilename u)).1.1
        (imageFetch true assets dls (assetFilename u)).1.2 (assetFilename u)).1 =
      (imageFetch true assets dls (assetFilename u)).1 ∧
    (assets.contains (assetFilename u) = false →
      (imageFetch true assets dls (assetFilename u)).1 =
        (assets ++ [assetFilename u], dls + 1)) ∧
    (assets.contains (assetFilename u) = true →
      (imageFetch true assets dls (assetFilename u)).1 = (assets, dls)) := by
  by_cases hmem : assetFilename u ∈ assets
  · refine ⟨?_, ?_, ?_⟩ <;> simp [imageFetch, hmem]
  · refine ⟨?_, ?_, ?_⟩ <;> simp [imageFetch, hmem]

/-- Witness for C7 at a concrete URL and asset directory. -/
theorem c7_asset_fetch_idempotent_witness :
    (imageFetch true
        (imageFetch true ["old.bin".toList] 0 (assetFilename "https://h/i.png".toList)).1.1
        (imageFetch true ["old.bin".toList] 0 (assetFilename "https://h/i.png".toList)).1.2
        (assetFilename "https://h/i.png".toList)).1 =
      (imageFetch true ["old.bin".toList] 0 (assetFilename "https://h/i.png".toList)).1 ∧
    (imageFetch true ["old.bin".toList] 0 (assetFilename "https://h/i.png".toList)).1 =
      (["old.bin".toList] ++ [assetFilename "https://h/i.png".toList], 0 + 1) :=
  ⟨(c7_asset_fetch_idempotent "https://h/i.png".toList ["old.bin".toList] 0).1,
   (c7_asset_fetch_idempotent "https://h/i.png".toList ["old.bin".toList] 0).2.1 (by decide)⟩

/-! ## C10 — unresolvable anchor hrefs are left untouched -/

theorem rewriteAnchors_append (host : Str) (visited : List (Str × PageMeta))
    (urlObj : JSURL) (xs ys : List Anchor) (q : List Str) :
    rewriteAnchors host visited urlObj (xs ++ ys) q =
      ((rewriteAnchors host visited urlObj xs q).1 ++
        (rewriteAnchors host visited urlObj ys
          (rewriteAnchors host visited urlObj xs q).2).1,
       (rewriteAnchors host visited urlObj ys
          (rewriteAnchors host visited urlObj xs q).2).2) := by
  induction xs generalizing q with
  | nil => simp [rewriteAnchors]
  | cons a as ih => simp [rewriteAnchors, ih]

/-- C10: an anchor whose href does not resolve against the page URL is left
completely unchanged (no href rewrite, no target/rel marking), enqueues
nothing, and does not disturb the processing of the surrounding anchors:
the loop over `xs ++ a :: ys` behaves on `xs` and `ys` exactly as it
would with `a` dropped, with `a` reproduced unchanged in place. -/
theorem c10_unresolvable_href_untouched (host : Str) (visited : List (Str × PageMeta))
    (urlObj : JSURL) (q : List Str) (a : Anchor) (h : Str) (xs ys : List Anchor)
    (ha : a.href = some h) (hres : jsResolve h urlObj = none) :
    rewriteAnchor host visited urlObj q a = (a, q) ∧
    rewriteAnchors host visited urlObj (xs ++ a :: ys) q =
      ((rewriteAnchors host visited urlObj xs q).1 ++ a ::
        (rewriteAnchors host visited urlObj ys
          (rewriteAnchors host visited urlObj xs q).2).1,
       (rewriteAnchors host visited urlObj ys
          (rewriteAnchors host visited urlObj xs q).2).2) := by
  have hne : h.isEmpty = false := by
    cases h with
    | nil => simp [jsResolve, hasScheme, isPrefixLit, takeUntil] at hres
    | cons c cs => rfl
  have h1 : ∀ q', rewriteAnchor host visited urlObj q' a = (a, q') := by
    intro q'
    unfold rewriteAnchor
    rw [ha]
    simp [hne, hres]
  refine ⟨h1 q, ?_⟩
  rw [rewriteAnchors_append]
  simp [rewriteAnchors, h1]

/-- Witness for C10: `https://` has a scheme but no host, so resolution
throws, and the anchor sails through the loop untouched between two
ordinary anchors. -/
theorem c10_unresolvable_href_untouched_witness :
    rewriteAnchor "h".toList [] baseU8 [] ⟨some "https://".toList, "t".toList, none, none⟩ =
      (⟨some "https://".toList, "t".toList, none, none⟩, []) ∧
    rewriteAnchors "h".toList [] baseU8
        ([⟨none, [], none, none⟩] ++ ⟨some "https://".toList, "t".toList, none, none⟩ ::
          [⟨some "#x".toList, [], none, none⟩]) [] =
      ((rewriteAnchors "h".toList [] baseU8 [⟨none, [], none, none⟩] []).1 ++
        ⟨some "https://".toList, "t".toList, none, none⟩ ::
        (rewriteAnchors "h".toList [] baseU8 [⟨some "#x".toList, [], none, none⟩]
          (rewriteAnchors "h".toList [] baseU8 [⟨none, [], none, none⟩] []).2).1,
       (rewriteAnchors "h".toList [] baseU8 [⟨some "#x".toList, [], none, none⟩]
          (rewriteAnchors "h".toList [] baseU8 [⟨none, [], none, none⟩] []).2).2) :=
  c10_unresolvable_href_untouched "h".toList [] baseU8 []
    ⟨some "https://".toList, "t".toList, none, none⟩ "https://".toList
    [⟨none, [], none, none⟩] [⟨some "#x".toList, [], none, none⟩] rfl (by decide)

/-! ## C8 — out-of-scope anchors -/

/-- C8 counterexample: for the out-of-scope root-relative anchor `/about`
on an in-scope page, the rewrite marks the anchor to open in a new
browsing context but leaves its href at the literal `/about` — not at the
absolute resolved URL `https://h/about` the claim requires. -/
theorem c8_counterexample_relative_href :
    (rewriteAnchor "h".toList [] baseU8 []
        ⟨some "/about".toList, "About".toList, none, none⟩).1.href =
      some "/about".toList ∧
    (jsResolve "/about".toList baseU8).map urlString = some "https://h/about".toList ∧
    (rewriteAnchor "h".toList [] baseU8 []
        ⟨some "/about".toList, "About".toList, none, none⟩).1.target =
      some "_blank".toList ∧
    some "/about".toList ≠ some "https://h/about".toList := by
  refine ⟨by decide, by decide, by decide, by decide⟩

/-- C8 as amended: an anchor whose href resolves to an out-of-scope URL
keeps its href attribute unchanged (it is not replaced by the resolved
absolute URL) and is marked to open in a new browsing context
(`target="_blank"`, `rel="noopener noreferrer"`); the queue is untouched. -/
theorem c8_out_of_scope_marked (host : Str) (visited : List (Str × PageMeta))
    (urlObj : JSURL) (q : List Str) (a : Anchor) (h : Str) (absU x : JSURL)
    (ha : a.href = some h) (hne : h.isEmpty = false)
    (hres : jsResolve h urlObj = some absU)
    (hx : parseURL (urlString absU) = some x)
    (hout : (x.host == host && isNotionPage (urlString absU)) = false) :
    rewriteAnchor host visited urlObj q a =
      ({ a with target := some "_blank".toList,
                rel := some "noopener noreferrer".toList }, q) := by
  unfold rewriteAnchor
  rw [ha]
  simp [hne, hres, hx, hout]

/-- Witness for C8's amended theorem at the concrete `/about` anchor. -/
theorem c8_out_of_scope_marked_witness :
    rewriteAnchor "h".toList [] baseU8 [] ⟨some "/about".toList, "About".toList, none, none⟩ =
      (⟨some "/about".toList, "About".toList,
        some "_blank".toList, some "noopener noreferrer".toList⟩, []) :=
  c8_out_of_scope_marked "h".toList [] baseU8 []
    ⟨some "/about".toList, "About".toList, none, none⟩ "/about".toList
    ⟨"https".toList, "h".toList, "/about".toList, [], []⟩
    ⟨"https".toList, "h".toList, "/about".toList, [], []⟩
    rfl rfl (by decide) (by decide) (by decide)

/-! ## C2 — skipped URLs and re-fetching -/

theorem hasKey_append (v w : List (Str × PageMeta)) (u : Str) :
    hasKey (v ++ w) u = (hasKey v u || hasKey w u) := List.any_append

theorem crawlStep_keeps_visited_log (w : World) (host : Str) (s : CrawlState) (u : Str)
    (hu : hasKey s.visited u = true) :
    hasKey (crawlStep w host s).visited u = true ∧
    List.count u (crawlStep w host s).log = List.count u s.log := by
  unfold crawlStep
  cases hq : s.queue with
  | nil => exact ⟨hu, rfl⟩
  | cons url rest =>
    by_cases hv : hasKey s.visited url = true
    · simp [hv, hu]
    · have hne : u ∉ ([url] : List Str) := by
        intro he
        simp at he
        subst he
        exact hv hu
      have hcount : List.count u (s.log ++ [url]) = List.count u s.log := by
        rw [List.count_append, List.count_eq_zero.mpr hne, Nat.add_zero]
      cases hf : w.fetch url with
      | err => simp [hv, hu, hf, hcount]
      | resp ok doc =>
        cases ok with
        | false => simp [hv, hu, hf, hcount]
        | true =>
          cases hp : parseURL url with
          | none => simp [hv, hu, hf, hp, hcount]
          | some urlObj => simp [hv, hu, hf, hp, hcount, hasKey_append]

/-- C2 as amended: a URL recorded in the visited map (a persisted URL) is
never passed to `page.goto` again — its count of `→ Visiting` log entries
never grows, however long the crawl continues. -/
theorem c2_persisted_never_refetched (w : World) (host : Str) (fuel : Nat)
    (s : CrawlState) (u : Str) (hu : hasKey s.visited u = true) :
    List.count u (crawlRun w host fuel s).log = List.count u s.log := by
  induction fuel generalizing s with
  | zero => rfl
  | succ fuel ih =>
    unfold crawlRun
    by_cases hl : loopCond s = true
    · simp only [hl, if_true]
      have hstep := crawlStep_keeps_visited_log w host s u hu
      rw [ih (crawlStep w host s) hstep.1, hstep.2]
    · simp [hl]

/-- Counterexample for C2: the skipped page is fetched twice.  The seed
links to `skipU2` (which is skipped on a non-success status) and to
`lateU2`; the later-visited `lateU2` links to `skipU2` again, which, being
recorded nowhere, is re-enqueued and re-fetched: the `goto` log contains
it twice and it still is in no terminal record. -/
theorem c2_counterexample_skipped_refetched :
    (runClone world2 seedU2 8).map
      (fun st => (st.log, List.count skipU2 st.log, hasKey st.visited skipU2)) =
      some ([seedU2, skipU2, lateU2, skipU2], 2, false) := by decide

/-- Witness for C2's amended theorem: a URL already visited in the start
state is never logged again. -/
theorem c2_persisted_never_refetched_witness :
    List.count seedU2 (crawlRun world2 "h".toList 3
      ⟨[seedU2], [(seedU2, ⟨"T".toList, "t.html".toList⟩)], [], [], 0, []⟩).log =
    List.count seedU2 ([] : List Str) :=
  c2_persisted_never_refetched world2 "h".toList 3
    ⟨[seedU2], [(seedU2, ⟨"T".toList, "t.html".toList⟩)], [], [], 0, []⟩ seedU2 (by decide)

/-! ## C3 — termination and the page cap -/

theorem loopCond_false_iff (s : CrawlState) :
    loopCond s = false ↔ (s.queue = [] ∨ MAX_PAGES ≤ s.visited.length) := by
  unfold loopCond
  cases hq : s.queue with
  | nil => simp
  | cons a l => simp [Nat.not_lt]

theorem crawlRun_stopped (w : World) (host : Str) (s : CrawlState) (n : Nat)
    (h : loopCond s = false) : crawlRun w host n s = s := by
  cases n with
  | zero => rfl
  | succ n => simp [crawlRun, h]

theorem crawlStep_progress (w : World) (host : Str) (s : CrawlState)
    (h : loopCond s = true) :
    (crawlStep w host s).visited.length = s.visited.length + 1 ∨
    ((crawlStep w host s).visited = s.visited ∧
      (crawlStep w host s).queue.length + 1 = s.queue.length) := by
  cases hq : s.queue with
  | nil =>
    have hfalse : loopCond s = false := (loopCond_false_iff s).mpr (Or.inl hq)
    rw [hfalse] at h
    simp at h
  | cons url rest =>
    unfold crawlStep
    rw [hq]
    by_cases hv : hasKey s.visited url = true
    · right
      simp [hv]
    · cases hf : w.fetch url with
      | err => right; simp [hv, hf]
      | resp ok doc =>
        cases ok with
        | false => right; simp [hv, hf]
        | true =>
          cases hp : parseURL url with
          | none => right; simp [hv, hf, hp]
          | some urlObj => left; simp [hv, hf, hp]

theorem crawl_term_inner (w : World) (host : Str) (k : Nat)
    (ih : ∀ s : CrawlState, MAX_PAGES - s.visited.length ≤ k →
      ∃ n, loopCond (crawlRun w host n s) = false) :
    ∀ (q : Nat) (s : CrawlState), MAX_PAGES - s.visited.length ≤ k + 1 →
      s.queue.length ≤ q → ∃ n, loopCond (crawlRun w host n s) = false := by
  intro q
  induction q with
  | zero =>
    intro s hk hq
    refine ⟨0, ?_⟩
    show loopCond s = false
    rw [loopCond_false_iff]
    left
    exact List.length_eq_zero.mp (by omega)
  | succ q ihq =>
    intro s hk hq
    by_cases hl : loopCond s = true
    · rcases crawlStep_progress w host s hl with hp | ⟨hv, hql⟩
      · obtain ⟨n, hn⟩ := ih (crawlStep w host s) (by omega)
        refine ⟨n + 1, ?_⟩
        unfold crawlRun
        rw [if_pos hl]
        exact hn
      · obtain ⟨n, hn⟩ := ihq (crawlStep w host s) (by rw [hv]; omega) (by omega)
        refine ⟨n + 1, ?_⟩
        unfold crawlRun
        rw [if_pos hl]
        exact hn
    · exact ⟨0, by cases hb : loopCond s with
        | false => exact hb
        | true => exact absurd hb hl⟩

theorem crawl_term_outer (w : World) (host : Str) :
    ∀ (k : Nat) (s : CrawlState), MAX_PAGES - s.visited.length ≤ k →
      ∃ n, loopCond (crawlRun w host n s) = false := by
  intro k
  induction k with
  | zero =>
    intro s hk
    refine ⟨0, ?_⟩
    show loopCond s = false
    rw [loopCond_false_iff]
    right
    omega
  | succ k ihk =>
    intro s hk
    exact crawl_term_inner w host k ihk s.queue.length s hk (Nat.le_refl _)

/-- C3 as amended: the crawl loop always terminates, and it halts exactly
when the frontier queue is empty or the number of *persisted* pages
(`visited.size`) reaches `MAX_PAGES`; once the persisted count reaches
the cap no further queued URL is visited.  (Skipped-but-attempted pages
are recorded nowhere and do not count towards the cap.) -/
theorem c3_terminates_cap_on_persisted (w : World) (host : Str) :
    (∀ s : CrawlState, ∃ n, loopCond (crawlRun w host n s) = false) ∧
    (∀ (s : CrawlState) (n : Nat), loopCond s = false → crawlRun w host n s = s) ∧
    (∀ (s : CrawlState) (n : Nat), MAX_PAGES ≤ s.visited.length → crawlRun w host n s = s) ∧
    (∀ s : CrawlState, loopCond s = false ↔ (s.queue = [] ∨ MAX_PAGES ≤ s.visited.length)) := by
  refine ⟨?_, ?_, ?_, loopCond_false_iff⟩
  · intro s
    exact crawl_term_outer w host MAX_PAGES s (Nat.sub_le _ _)
  · intro s n h
    exact crawlRun_stopped w host s n h
  · intro s n h
    exact crawlRun_stopped w host s n ((loopCond_false_iff s).mpr (Or.inr h))

/-! ### Symbolic evaluation of the `world3` run

The decimal index inside each `failU3` URL is an arbitrary natural
number, so the run is evaluated by lemmas about `natDecimal` rather than
by brute-force computation: the digits of `natDecimal k` are never URL
delimiters, which pins down how every parser primitive walks a failing
URL. -/

theorem natDecimal_digit_range (n : Nat) :
    ∀ c ∈ natDecimal n, 48 ≤ c.toNat ∧ c.toNat ≤ 57 := by
  intro c hc
  unfold natDecimal at hc
  rw [List.mem_reverse, List.mem_map] at hc
  obtain ⟨d, hd, hdc⟩ := hc
  have hd10 : d < 10 := decDigits_bound _ _ _ hd
  have hch : ∀ e, e < 10 → 48 ≤ (digitCh e).toNat ∧ (digitCh e).toNat ≤ 57 := by decide
  rw [← hdc]
  exact hch d hd10

theorem digit_beq_false (c d : Char) (h1 : 48 ≤ c.toNat) (h2 : c.toNat ≤ 57)
    (hd : d.toNat < 48 ∨ 57 < d.toNat) : (c == d) = false := by
  apply beq_eq_false_iff_ne.mpr
  intro he
  subst he
  omega

theorem digit_not_stop (c : Char) (h1 : 48 ≤ c.toNat) (h2 : c.toNat ≤ 57) :
    (c == ':') = false ∧ (c == '/') = false ∧ (c == '?') = false ∧
      (c == '#') = false ∧ (c == '-') = false :=
  ⟨digit_beq_false c ':' h1 h2 (by decide), digit_beq_false c '/' h1 h2 (by decide),
    digit_beq_false c '?' h1 h2 (by decide), digit_beq_false c '#' h1 h2 (by decide),
    digit_beq_false c '-' h1 h2 (by decide)⟩

theorem natDecimal_no_stop (k : Nat) :
    (∀ c ∈ natDecimal k, (fun c => c == ':') c = false) ∧
    (∀ c ∈ natDecimal k, (fun c => c == '/' || c == '?' || c == '#') c = false) ∧
    (∀ c ∈ natDecimal k, (fun c => c == '?' || c == '#') c = false) ∧
    (∀ c ∈ natDecimal k, (fun c => c == '#') c = false) ∧
    (∀ c ∈ natDecimal k, (fun c => !(c == '-')) c = true) := by
  refine ⟨?_, ?_, ?_, ?_, ?_⟩ <;>
    · intro c hc
      obtain ⟨h1, h2⟩ := natDecimal_digit_range k c hc
      have hd := digit_not_stop c h1 h2
      simp [hd.1, hd.2.1, hd.2.2.1, hd.2.2.2.1, hd.2.2.2.2]

theorem takeUntil_clean (q : Char → Bool) (a : Str) (ha : ∀ c ∈ a, q c = false) :
    takeUntil q a = (a, []) := by
  induction a with
  | nil => rfl
  | cons c cs ih =>
    have hc := ha c (by simp)
    simp [takeUntil, hc, ih (fun x hx => ha x (by simp [hx]))]

theorem takeUntil_stop (q : Char → Bool) (a r p s : Str)
    (h : takeUntil q a = (p, s)) (hs : s.isEmpty = false) :
    takeUntil q (a ++ r) = (p, s ++ r) := by
  rw [takeUntil_append, h]
  simp [hs]

theorem takeUntil_cont (q : Char → Bool) (a r : Str) (h : takeUntil q a = (a, [])) :
    takeUntil q (a ++ r) = (a ++ (takeUntil q r).1, (takeUntil q r).2) := by
  rw [takeUntil_append, h]
  simp

theorem parse_failU3 (k : Nat) :
    parseURL (failU3 k) =
      some ⟨"https".toList, ['h'], '/' :: 'f' :: (natDecimal k ++ hexTail), [], []⟩ := by
  have hns := natDecimal_no_stop k
  have hA : takeUntil (fun c => c == ':') (failU3 k) =
      ("https".toList, "://h/f".toList ++ (natDecimal k ++ hexTail)) := by
    unfold failU3
    rw [List.append_assoc]
    exact takeUntil_stop _ "https://h/f".toList _ "https".toList "://h/f".toList
      (by decide) (by decide)
  have hB : takeUntil (fun c => c == '/' || c == '?' || c == '#')
        ("h/f".toList ++ (natDecimal k ++ hexTail)) =
      (['h'], "/f".toList ++ (natDecimal k ++ hexTail)) :=
    takeUntil_stop _ "h/f".toList _ ['h'] "/f".toList (by decide) (by decide)
  have hC1 : takeUntil (fun c => c == '?' || c == '#') (natDecimal k ++ hexTail) =
      (natDecimal k ++ hexTail, []) := by
    rw [takeUntil_cont _ _ _ (takeUntil_clean _ _ hns.2.2.1),
      show takeUntil (fun c => c == '?' || c == '#') hexTail = (hexTail, []) from by decide]
  have hC : takeUntil (fun c => c == '?' || c == '#')
        ("/f".toList ++ (natDecimal k ++ hexTail)) =
      ("/f".toList ++ (natDecimal k ++ hexTail), []) := by
    rw [takeUntil_cont _ _ _ (by decide), hC1]
  unfold parseURL
  rw [hA]
  dsimp only
  rw [show ("://h/f".toList : Str) ++ (natDecimal k ++ hexTail) =
    ':' :: '/' :: '/' :: ("h/f".toList ++ (natDecimal k ++ hexTail)) from rfl]
  split
  · rename_i rest heq
    injection heq with h1 h2
    injection h2 with h3 h4
    injection h4 with h5 h6
    subst h6
    rw [show (("https".toList : Str).isEmpty
        || !(("https".toList : Str).all Char.isAlpha)) = false from by decide]
    simp only [Bool.false_eq_true, if_false]
    rw [hB]
    dsimp only
    rw [show ((['h'] : Str).isEmpty) = false from rfl]
    simp only [Bool.false_eq_true, if_false]
    rw [hC]
    dsimp only
    rw [show (("/f".toList : Str) ++ (natDecimal k ++ hexTail)).isEmpty = false from rfl]
    simp only [Bool.false_eq_true, if_false, takeUntil]
    rw [show lowerS "https".toList = "https".toList from by decide,
      show lowerS ['h'] = ['h'] from by decide]
    rfl
  · rename_i hne
    exact absurd rfl (hne ("h/f".toList ++ (natDecimal k ++ hexTail)))

theorem hasScheme_failU3 (k : Nat) : hasScheme (failU3 k) = true := by
  have hA : takeUntil (fun c => c == ':' || c == '/' || c == '?' || c == '#') (failU3 k) =
      ("https".toList, "://h/f".toList ++ (natDecimal k ++ hexTail)) := by
    unfold failU3
    rw [List.append_assoc]
    exact takeUntil_stop _ "https://h/f".toList _ "https".toList "://h/f".toList
      (by decide) (by decide)
  unfold hasScheme
  rw [hA]
  dsimp only
  rw [show ("://h/f".toList : Str) ++ (natDecimal k ++ hexTail) =
    ':' :: ("//h/f".toList ++ (natDecimal k ++ hexTail)) from rfl]
  split
  · decide
  · rename_i hne
    exact absurd rfl (hne ("//h/f".toList ++ (natDecimal k ++ hexTail)))

theorem urlString_nohash (s h p q : Str) :
    urlString ⟨s, h, p, q, []⟩ = s ++ ':' :: '/' :: '/' :: [] ++ h ++ p ++ q := by
  unfold urlString
  simp

theorem urlString_failU3 (k : Nat) :
    urlString ⟨"https".toList, ['h'], '/' :: 'f' :: (natDecimal k ++ hexTail), [], []⟩ =
      failU3 k := by
  rw [urlString_nohash]
  unfold failU3
  simp only [List.append_assoc, List.cons_append, List.nil_append, List.append_nil]
  rfl

theorem normalizeUrl_failU3 (k : Nat) : normalizeUrl (failU3 k) = failU3 k := by
  unfold normalizeUrl
  rw [parse_failU3]
  exact urlString_failU3 k

theorem isNotionPage_failU3 (k : Nat) : isNotionPage (failU3 k) = true := by
  have hns := natDecimal_no_stop k
  unfold isNotionPage
  rw [parse_failU3]
  dsimp only
  rw [show ('/' :: 'f' :: (natDecimal k ++ hexTail) : Str) =
    "/f".toList ++ (natDecimal k ++ hexTail) from rfl]
  rw [List.filter_append, List.filter_append]
  rw [show ("/f".toList : Str).filter (fun c => !(c == '-')) = "/f".toList from by decide]
  rw [List.filter_eq_self.mpr hns.2.2.2.2]
  rw [show hexTail.filter (fun c => !(c == '-')) = hexCore from by decide]
  apply (hasHex32_iff _).mpr
  refine ⟨"/f".toList ++ natDecimal k, hexCore, [], ?_, by decide, by decide⟩
  simp [List.append_assoc]

theorem fail_ne_seed (x : Str) : "https://h/f".toList ++ x = seedU3 → False := by
  intro h
  have h10 := congrArg (fun l => l[10]?) h
  dsimp only at h10
  rw [List.getElem?_append_left (by decide)] at h10
  exact absurd h10 (by decide)

theorem failU3_beq_seed (k : Nat) : (failU3 k == seedU3) = false := by
  apply beq_eq_false_iff_ne.mpr
  intro h
  unfold failU3 at h
  rw [List.append_assoc] at h
  exact fail_ne_seed _ h

theorem seed_beq_fail (k : Nat) : (seedU3 == failU3 k) = false := by
  apply beq_eq_false_iff_ne.mpr
  intro h
  unfold failU3 at h
  rw [List.append_assoc] at h
  exact fail_ne_seed _ h.symm

theorem world3_fetch_fail (k : Nat) :
    world3.fetch (failU3 k) = .resp false ⟨[], [], []⟩ := by
  show (if failU3 k == seedU3 then Fetched.resp true seedDoc3
    else Fetched.resp false ⟨[], [], []⟩) = _
  rw [failU3_beq_seed]
  simp only [Bool.false_eq_true, if_false]

theorem world3_fetch_seed :
    world3.fetch seedU3 =
      .resp true ⟨"Start".toList,
        ks150.map (fun j => ⟨some (failU3 j), "x".toList, none, none⟩), []⟩ := by
  show (if seedU3 == seedU3 then Fetched.resp true seedDoc3
    else Fetched.resp false ⟨[], [], []⟩) = _
  rw [if_pos (show (seedU3 == seedU3) = true from rfl)]
  unfold seedDoc3 ks150
  rw [List.map_map]
  rfl

theorem hasKey_seed_fail (m : PageMeta) (k : Nat) :
    hasKey [(seedU3, m)] (failU3 k) = false := by
  unfold hasKey
  simp [seed_beq_fail k]

theorem crawlRun_succ (w : World) (host : Str) (fuel : Nat) (s : CrawlState) :
    crawlRun w host (fuel + 1) s =
      if loopCond s then crawlRun w host fuel (crawlStep w host s) else s := rfl

theorem crawl3_skip_run (m : PageMeta) :
    ∀ (ks : List Nat) (fuel : Nat) (sv : List (Str × Doc)) (as : List Str) (dl : Nat)
      (lg : List Str), ks.length < fuel →
      crawlRun world3 "h".toList fuel ⟨ks.map failU3, [(seedU3, m)], sv, as, dl, lg⟩ =
        ⟨[], [(seedU3, m)], sv, as, dl, lg ++ ks.map failU3⟩ := by
  intro ks
  induction ks with
  | nil =>
    intro fuel sv as dl lg hf
    cases fuel with
    | zero => simp at hf
    | succ f =>
      rw [crawlRun_succ,
        show loopCond ⟨([] : List Nat).map failU3, [(seedU3, m)], sv, as, dl, lg⟩ = false
          from rfl,
        if_neg Bool.false_ne_true]
      simp
  | cons k ks ih =>
    intro fuel sv as dl lg hf
    cases fuel with
    | zero => simp at hf
    | succ f =>
      rw [crawlRun_succ,
        show loopCond ⟨(k :: ks).map failU3, [(seedU3, m)], sv, as, dl, lg⟩ = true from by
          simp [loopCond, MAX_PAGES],
        if_pos rfl]
      have hstep : crawlStep world3 "h".toList
            ⟨(k :: ks).map failU3, [(seedU3, m)], sv, as, dl, lg⟩ =
          ⟨ks.map failU3, [(seedU3, m)], sv, as, dl, lg ++ [failU3 k]⟩ := by
        show crawlStep world3 "h".toList
          ⟨failU3 k :: ks.map failU3, [(seedU3, m)], sv, as, dl, lg⟩ = _
        unfold crawlStep
        dsimp only
        rw [hasKey_seed_fail m k]
        simp only [Bool.false_eq_true, if_false]
        rw [world3_fetch_fail k]
      rw [hstep, ih f sv as dl (lg ++ [failU3 k])
        (by simp only [List.length_cons] at hf ⊢; omega)]
      simp [List.append_assoc]

theorem rewriteAnchor_fail (base : JSURL) (q : List Str) (k : Nat)
    (hq : q.contains (failU3 k) = false) :
    rewriteAnchor "h".toList [] base q ⟨some (failU3 k), "x".toList, none, none⟩ =
      (⟨some "x.html".toList, "x".toList, none, none⟩, q ++ [failU3 k]) := by
  unfold rewriteAnchor
  dsimp only
  rw [show (failU3 k).isEmpty = false from rfl]
  simp only [Bool.false_eq_true, if_false]
  unfold jsResolve
  rw [hasScheme_failU3 k, if_pos rfl, parse_failU3 k]
  dsimp only
  rw [urlString_failU3 k, normalizeUrl_failU3 k, parse_failU3 k]
  dsimp only
  rw [isNotionPage_failU3 k,
    show ((['h'] : Str) == "h".toList) = true from rfl,
    if_pos (show (true && true) = true from rfl),
    show findMeta [] (failU3 k) = none from rfl]
  dsimp only
  rw [show hasKey [] (failU3 k) = false from rfl, hq]
  simp only [Bool.not_false, Bool.and_self, if_true]
  rw [show guessFilename "x".toList = "x.html".toList from by decide]

theorem failU3_inj (a b : Nat) (h : failU3 a = failU3 b) : a = b := by
  unfold failU3 at h
  rw [List.append_assoc, List.append_assoc] at h
  exact natDecimal_inj _ _ (List.append_cancel_right (List.append_cancel_left h))

theorem contains_push_false (q : List Str) (x y : Str)
    (h1 : q.contains y = false) (h2 : y ≠ x) : ((q ++ [x]).contains y) = false := by
  simp [List.contains] at h1 ⊢
  exact ⟨h1, h2⟩

theorem rewriteAnchors_fails (base : JSURL) :
    ∀ (ks : List Nat) (q : List Str), ks.Nodup →
      (∀ j ∈ ks, q.contains (failU3 j) = false) →
      rewriteAnchors "h".toList [] base
        (ks.map (fun j => ⟨some (failU3 j), "x".toList, none, none⟩)) q =
      (ks.map (fun _ => ⟨some "x.html".toList, "x".toList, none, none⟩),
        q ++ ks.map failU3) := by
  intro ks
  induction ks with
  | nil => intro q _ _; simp [rewriteAnchors]
  | cons k ks ih =>
    intro q hnd hq
    simp only [List.map_cons, rewriteAnchors]
    rw [rewriteAnchor_fail base q k (hq k (by simp))]
    dsimp only
    rw [ih (q ++ [failU3 k]) (List.nodup_cons.mp hnd).2 ?hq2]
    · simp
    case hq2 =>
      intro j hj
      refine contains_push_false q _ _ (hq j (by simp [hj])) (fun he => ?_)
      exact (List.nodup_cons.mp hnd).1 (failU3_inj j k he ▸ hj)

theorem ks150_nodup : ks150.Nodup := by
  unfold ks150
  exact (List.nodup_range 150).map (fun a b h => by omega)

theorem crawl3_seed_step :
    crawlStep world3 "h".toList ⟨[seedU3], [], [], [], 0, []⟩ =
      ⟨ks150.map failU3, [(seedU3, seedMeta3)],
        [("start.html".toList,
          ⟨"Start".toList,
            ks150.map (fun _ => ⟨some "x.html".toList, "x".toList, none, none⟩), []⟩)],
        [], 0, [seedU3]⟩ := by
  unfold crawlStep
  dsimp only
  rw [show hasKey [] seedU3 = false from rfl]
  simp only [Bool.false_eq_true, if_false]
  rw [world3_fetch_seed]
  dsimp only
  rw [show parseURL seedU3 = some seedObj3 from by decide]
  dsimp only
  rw [show pageTitle "Start".toList = "Start".toList from by decide]
  rw [show uniqueSlug "Start".toList [] = "start".toList from by decide]
  rw [rewriteAnchors_fails seedObj3 ks150 [] ks150_nodup (fun j hj => rfl)]
  rfl

/-- Counterexample for C3's halting condition as claimed: in the `world3`
run one page persists and 150 further pages are attempted and skipped, so
the number of attempted pages (persisted plus skipped-but-attempted)
passes the 150-page cap and the loop nevertheless keeps visiting queued
URLs — 151 `goto` attempts in all. -/
theorem c3_counterexample_attempts_exceed_cap :
    MAX_PAGES < crawl3.log.length := by
  have hlog : crawl3.log = seedU3 :: ks150.map failU3 := by
    unfold crawl3
    rw [show (155 : Nat) = 154 + 1 from rfl, crawlRun_succ,
      show loopCond ⟨[seedU3], [], [], [], 0, []⟩ = true from rfl,
      if_pos rfl, crawl3_seed_step,
      crawl3_skip_run seedMeta3 ks150 154 _ _ _ _ (by unfold ks150; simp)]
    rfl
  rw [hlog]
  simp only [List.length_cons, List.length_map]
  rw [show ks150.length = 150 from by unfold ks150; simp]
  unfold MAX_PAGES
  omega

/-- Witness for C3's amended theorem: a stopped state is a fixpoint. -/
theorem c3_terminates_cap_on_persisted_witness :
    crawlRun world3 "h".toList 7 ⟨[], [], [], [], 0, []⟩ = ⟨[], [], [], [], 0, []⟩ :=
  (c3_terminates_cap_on_persisted world3 "h".toList).2.1
    ⟨[], [], [], [], 0, []⟩ 7 (by decide)

/-! ## C9 — frontier invariants -/

theorem rewriteAnchor_queue_nodup (host : Str) (visited : List (Str × PageMeta))
    (urlObj : JSURL) (q : List Str) (a : Anchor) (h : q.Nodup) :
    (rewriteAnchor host visited urlObj q a).2.Nodup := by
  unfold rewriteAnchor
  split
  · exact h
  · split
    · exact h
    · split
      · exact h
      · dsimp only
        split
        · exact h
        · split
          · dsimp only
            split
            · rename_i hguard
              have h2 := ((Bool.and_eq_true _ _).mp hguard).2
              simp at h2
              refine h.append (List.nodup_singleton _) ?_
              intro x hx hx'
              rw [List.mem_singleton] at hx'
              exact absurd (hx' ▸ hx) h2
            · exact h
          · exact h

theorem rewriteAnchors_queue_nodup (host : Str) (visited : List (Str × PageMeta))
    (urlObj : JSURL) (as : List Anchor) (q : List Str) (h : q.Nodup) :
    (rewriteAnchors host visited urlObj as q).2.Nodup := by
  induction as generalizing q with
  | nil => exact h
  | cons a as ih =>
    simp only [rewriteAnchors]
    exact ih _ (rewriteAnchor_queue_nodup host visited urlObj q a h)

theorem crawlStep_queue_nodup (w : World) (host : Str) (s : CrawlState)
    (h : s.queue.Nodup) : (crawlStep w host s).queue.Nodup := by
  unfold crawlStep
  cases hq : s.queue with
  | nil => simp only [hq]; exact List.nodup_nil
  | cons url rest =>
    rw [hq] at h
    have hr : rest.Nodup := (List.nodup_cons.mp h).2
    by_cases hv : hasKey s.visited url = true
    · simp [hv, hr]
    · cases hf : w.fetch url with
      | err => simp [hv, hf, hr]
      | resp ok doc =>
        cases ok with
        | false => simp [hv, hf, hr]
        | true =>
          cases hp : parseURL url with
          | none => simp [hv, hf, hp, hr]
          | some urlObj =>
            simp only [hv, hf, hp, Bool.false_eq_true, if_false]
            exact rewriteAnchors_queue_nodup host s.visited urlObj doc.anchors rest hr

/-- C9 as amended: the frontier queue never contains the same normalized
URL twice — the no-duplicates half of the invariant is preserved by every
crawl step.  (The other half fails: a queued URL can already be visited,
see the counterexample.) -/
theorem c9_queue_nodup_invariant (w : World) (host : Str) (fuel : Nat)
    (s : CrawlState) (h : s.queue.Nodup) : (crawlRun w host fuel s).queue.Nodup := by
  induction fuel generalizing s with
  | zero => exact h
  | succ fuel ih =>
    unfold crawlRun
    by_cases hl : loopCond s = true
    · simp only [hl, if_true]
      exact ih _ (crawlStep_queue_nodup w host s h)
    · simp [hl, h]

/-- Counterexample for C9: a page that links to itself.  While the seed is
being processed it is not yet in the visited map and no longer in the
queue, so its self-link passes the enqueue guard; when the iteration then
records the page, the frontier holds a URL that is a key of the visited
map. -/
theorem c9_counterexample_self_link :
    (crawlRun world9 "h".toList 1 ⟨[seedU9], [], [], [], 0, []⟩).queue = [seedU9] ∧
    hasKey (crawlRun world9 "h".toList 1 ⟨[seedU9], [], [], [], 0, []⟩).visited seedU9 = true := by
  exact ⟨by decide, by decide⟩

/-- Witness for C9's amended theorem on the self-link scenario. -/
theorem c9_queue_nodup_invariant_witness :
    (crawlRun world9 "h".toList 2 ⟨[seedU9], [], [], [], 0, []⟩).queue.Nodup :=
  c9_queue_nodup_invariant world9 "h".toList 2 ⟨[seedU9], [], [], [], 0, []⟩ (by decide)

/-! ## C1 — the fixup pass cannot repair guessed links -/

/-- C1 (code bug): in spec scenario A — a seed page with one in-scope link
to a second page (visited later) and one external link — the rewrite pass
replaces the in-scope anchor's href with the guess `second.html` derived
from the link text; the fixup pass only substitutes occurrences of
visited URLs, and the guessed href no longer contains the target URL, so
after the fixup the anchor still reads `second.html` while the second
page's real filename is `second-page.html`: the persisted link is broken,
contradicting the claim (and the script's own `link fix pass with the
actual filenames` comment). -/
theorem c1_fixup_cannot_fix_guessed_links :
    (runClone world1 seedU1 5).map (fun st =>
      ((st.saved.find? (fun f => f.1 == "start.html".toList)).map
        (fun f => f.2.anchors.map Anchor.href),
       findMeta st.visited (normalizeUrl pageU1))) =
      some (some [some "second.html".toList, some "https://ext.example/x".toList],
            some ⟨"Second Page".toList, "second-page.html".toList⟩) ∧
    "second.html".toList ≠ "second-page.html".toList := by
  exact ⟨by decide, by decide⟩

end NotionClone
